import Mathlib

set_option maxRecDepth 40000

/-!
Shallow embedding of `src/main.py`, a FastAPI service whose core is a bounded
proof-of-work nonce search (`mine`, lines 84-125) plus a single-hash endpoint
(`simple_hash`, lines 128-131).  Machine 32-bit words are modelled as `Nat`
reduced modulo `2 ^ 32`; byte strings are `List Nat` of byte values; the
monotonic clock `time.perf_counter` is modelled as an oracle `clock : Nat → Int`
giving the reading taken at the loop-condition check before attempt `i`
(time values are abstract integer instants, which preserves the ordering
comparisons the code performs).
-/

/-- Reduce a natural number modulo `2 ^ 32`, the wrap-around of 32-bit words. -/
def w32 (n : Nat) : Nat := n % 4294967296

/-- Right rotation of a 32-bit word by `s` bits. -/
def rotr32 (s x : Nat) : Nat := w32 ((x >>> s) ||| (x <<< (32 - s)))

/-- Bitwise complement of a 32-bit word. -/
def not32 (x : Nat) : Nat := 4294967295 ^^^ x

/-- SHA-256 choice function. -/
def ch32 (e f g : Nat) : Nat := (e &&& f) ^^^ (not32 e &&& g)

/-- SHA-256 majority function. -/
def maj32 (a b c : Nat) : Nat := (a &&& b) ^^^ (a &&& c) ^^^ (b &&& c)

/-- SHA-256 big sigma 0. -/
def bsig0 (x : Nat) : Nat := rotr32 2 x ^^^ rotr32 13 x ^^^ rotr32 22 x

/-- SHA-256 big sigma 1. -/
def bsig1 (x : Nat) : Nat := rotr32 6 x ^^^ rotr32 11 x ^^^ rotr32 25 x

/-- SHA-256 small sigma 0. -/
def ssig0 (x : Nat) : Nat := rotr32 7 x ^^^ rotr32 18 x ^^^ (x >>> 3)

/-- SHA-256 small sigma 1. -/
def ssig1 (x : Nat) : Nat := rotr32 17 x ^^^ rotr32 19 x ^^^ (x >>> 10)

/-- The 64 SHA-256 round constants. -/
def sha256K : List Nat :=
  [1116352408, 1899447441, 3049323471, 3921009573, 961987163, 1508970993,
   2453635748, 2870763221, 3624381080, 310598401, 607225278, 1426881987,
   1925078388, 2162078206, 2614888103, 3248222580, 3835390401, 4022224774,
   264347078, 604807628, 770255983, 1249150122, 1555081692, 1996064986,
   2554220882, 2821834349, 2952996808, 3210313671, 3336571891, 3584528711,
   113926993, 338241895, 666307205, 773529912, 1294757372, 1396182291,
   1695183700, 1986661051, 2177026350, 2456956037, 2730485921, 2820302411,
   3259730800, 3345764771, 3516065817, 3600352804, 4094571909, 275423344,
   430227734, 506948616, 659060556, 883997877, 958139571, 1322822218,
   1537002063, 1747873779, 1955562222, 2024104815, 2227730452, 2361852424,
   2428436474, 2756734187, 3204031479, 3329325298]

/-- The SHA-256 initial hash value, eight 32-bit words. -/
def sha256H0 : List Nat :=
  [1779033703, 3144134277, 1013904242, 2773480762,
   1359893119, 2600822924, 528734635, 1541459225]

/-- Big-endian 8-byte encoding of a natural number (the padded bit-length field). -/
def lenBytes8 (n : Nat) : List Nat :=
  (List.range 8).map fun i => (n >>> (56 - 8 * i)) % 256

/-- SHA-256 message padding: append `0x80`, zero bytes to reach 56 mod 64,
then the 8-byte big-endian bit length. -/
def padBytes (msg : List Nat) : List Nat :=
  msg ++ 128 :: List.replicate ((119 - msg.length % 64) % 64) 0 ++ lenBytes8 (8 * msg.length)

/-- Big-endian 32-bit word from the first four entries of a byte list. -/
def toWord (l : List Nat) : Nat :=
  ((l.getD 0 0 * 256 + l.getD 1 0) * 256 + l.getD 2 0) * 256 + l.getD 3 0

/-- Turn `4 * fuel` bytes into `fuel` big-endian 32-bit words. -/
def bytesToWords : Nat → List Nat → List Nat
  | 0, _ => []
  | fuel + 1, bytes => toWord (bytes.take 4) :: bytesToWords fuel (bytes.drop 4)

/-- Extend the 16-word block to the 64-word message schedule, one word per fuel step. -/
def extendSchedule : Nat → List Nat → List Nat
  | 0, ws => ws
  | fuel + 1, ws =>
      let L := ws.length
      let w := w32 (ssig1 (ws.getD (L - 2) 0) + ws.getD (L - 7) 0 +
                    ssig0 (ws.getD (L - 15) 0) + ws.getD (L - 16) 0)
      extendSchedule fuel (ws ++ [w])

/-- Working state of the SHA-256 compression function: eight 32-bit words. -/
structure Hash8 where
  a : Nat
  b : Nat
  c : Nat
  d : Nat
  e : Nat
  f : Nat
  g : Nat
  h : Nat

/-- One SHA-256 compression round with round constant `k` and schedule word `w`. -/
def roundStep (st : Hash8) (k w : Nat) : Hash8 :=
  let t1 := w32 (st.h + bsig1 st.e + ch32 st.e st.f st.g + k + w)
  let t2 := w32 (bsig0 st.a + maj32 st.a st.b st.c)
  ⟨w32 (t1 + t2), st.a, st.b, st.c, w32 (st.d + t1), st.e, st.f, st.g⟩

/-- Run the compression rounds over paired round constants and schedule words. -/
def compressRounds : List Nat → List Nat → Hash8 → Hash8
  | k :: ks, w :: ws, st => compressRounds ks ws (roundStep st k w)
  | _, _, st => st

/-- Compress one 16-word message block into the running 8-word hash value. -/
def compress (h : List Nat) (blockWords : List Nat) : List Nat :=
  let ws := extendSchedule 48 blockWords
  let st := compressRounds sha256K ws
    ⟨h.getD 0 0, h.getD 1 0, h.getD 2 0, h.getD 3 0,
     h.getD 4 0, h.getD 5 0, h.getD 6 0, h.getD 7 0⟩
  [w32 (st.a + h.getD 0 0), w32 (st.b + h.getD 1 0), w32 (st.c + h.getD 2 0),
   w32 (st.d + h.getD 3 0), w32 (st.e + h.getD 4 0), w32 (st.f + h.getD 5 0),
   w32 (st.g + h.getD 6 0), w32 (st.h + h.getD 7 0)]

/-- Fold the compression function over `fuel` 64-byte blocks. -/
def processBlocks : Nat → List Nat → List Nat → List Nat
  | 0, h, _ => h
  | fuel + 1, h, bytes => processBlocks fuel (compress h (bytesToWords 16 (bytes.take 64))) (bytes.drop 64)

/-- SHA-256 of a byte string, as the final eight 32-bit words. -/
def sha256Words (msg : List Nat) : List Nat :=
  let padded := padBytes msg
  processBlocks (padded.length / 64) sha256H0 padded

/-- ASCII code of the lowercase hex digit for `n < 16`. -/
def hexChar (n : Nat) : Nat := if n < 10 then 48 + n else 87 + n

/-- The eight hex-digit ASCII codes of a 32-bit word, most significant first. -/
def wordHexCodes (w : Nat) : List Nat :=
  (List.range 8).map fun i => hexChar ((w >>> (28 - 4 * i)) % 16)

/-- The 64 ASCII codes of `hashlib.sha256(msg).hexdigest()`. -/
def sha256HexCodes (msg : List Nat) : List Nat :=
  ((sha256Words msg).map wordHexCodes).flatten

/-- UTF-8 encoding of a Unicode code point, as Python `str.encode()` does per character. -/
def utf8Bytes (c : Nat) : List Nat :=
  if c < 128 then [c]
  else if c < 2048 then [192 + c / 64, 128 + c % 64]
  else if c < 65536 then [224 + c / 4096, 128 + c / 64 % 64, 128 + c % 64]
  else [240 + c / 262144, 128 + c / 4096 % 64, 128 + c / 64 % 64, 128 + c % 64]

/-- UTF-8 byte string of a Lean string, matching Python `s.encode()`. -/
def strBytes (s : String) : List Nat :=
  (s.toList.map fun c => utf8Bytes c.toNat).flatten

/-- Decimal digit bytes of a natural number, fuel-recursive so the kernel can reduce it. -/
def natDecAux : Nat → Nat → List Nat
  | 0, _ => []
  | fuel + 1, n => if n < 10 then [48 + n] else natDecAux fuel (n / 10) ++ [48 + n % 10]

/-- ASCII bytes of the decimal representation of a natural number. -/
def natDecBytes (n : Nat) : List Nat := natDecAux (n + 1) n

/-- ASCII bytes of Python's decimal string for an integer: a minus sign
followed by the digits when negative. -/
def intDecBytes : Int → List Nat
  | Int.ofNat n => natDecBytes n
  | Int.negSucc m => 45 :: natDecBytes (m + 1)

/-- Candidate byte payload of `src/main.py` line 107:
`f"{req.data}|{nonce}".encode()` — the data, the `|` delimiter (byte 124),
and the decimal nonce. -/
def payloadBytes (data : String) (nonce : Int) : List Nat :=
  strBytes data ++ 124 :: intDecBytes nonce

/-- Whether the first list is an initial segment of the second
(Python `str.startswith` on the digest, line 110). -/
def listStarts : List Nat → List Nat → Bool
  | [], _ => true
  | _ :: _, [] => false
  | a :: as, b :: bs => a == b && listStarts as bs

/-- The digest of nonce `m` for `data` starts with the target zeros `tz`:
the match condition of the search loop. -/
def nonceHits (data : String) (tz : List Nat) (m : Int) : Bool :=
  listStarts tz (sha256HexCodes (payloadBytes data m))

/-- Outcome of the search loop of `mine`: the attempt counter and, when a match
was recorded, the matching nonce and its hex digest (ASCII codes). -/
structure LoopOut where
  tried : Nat
  foundNonce : Option Int
  foundHash : Option (List Nat)
deriving DecidableEq

/-- The `while` loop of `mine` (`src/main.py` lines 106-114).  `clock i` is the
`time.perf_counter()` reading of the loop-condition check made when `tried = i`;
the loop body hashes the payload, increments `tried`, and either records the
match and stops or moves to the next nonce.  `fuel` is an upper bound on the
remaining iterations; it is irrelevant above `maxHashes.toNat` (proved below),
which is why the Python loop terminates. -/
def mineLoop (data : String) (tz : List Nat) (maxHashes : Int) (clock : Nat → Int)
    (deadline : Int) : Nat → Nat → Int → LoopOut
  | 0, tried, _ => ⟨tried, none, none⟩
  | fuel + 1, tried, nonce =>
      if (tried : Int) < maxHashes ∧ clock tried < deadline then
        let digest := sha256HexCodes (payloadBytes data nonce)
        if listStarts tz digest then ⟨tried + 1, some nonce, some digest⟩
        else mineLoop data tz maxHashes clock deadline fuel (tried + 1) (nonce + 1)
      else ⟨tried, none, none⟩

/-- The request body of `POST /api/mine` (`MineRequest`, `src/main.py` lines 20-25). -/
structure MineRequest where
  data : String
  difficulty : Int
  startNonce : Int
  maxHashes : Int
  timeLimitMs : Int
deriving DecidableEq

/-- The response body of `POST /api/mine` (`MineResult`, `src/main.py` lines 28-34);
`hashHex` holds the ASCII codes of the 64 hex digits and `targetZeros` those of
`target_prefix = "0" * difficulty`. -/
structure MineResult where
  found : Bool
  nonce : Option Int
  hashHex : Option (List Nat)
  triedHashes : Nat
  elapsedMs : Int
  targetZeros : List Nat
deriving DecidableEq

/-- The body of `mine` after validation (`src/main.py` lines 96-125): build the
target, run the bounded loop from `tried = 0`, `nonce = start_nonce` with
`deadline = start + time_limit_ms`, and package the outcome.  `startT` is the
`perf_counter` reading of line 97 and `endT` that of line 116, in the same
abstract integer time units as `clock`. -/
def mineSearch (clock : Nat → Int) (startT endT : Int) (r : MineRequest) : MineResult :=
  let tz := List.replicate r.difficulty.toNat 48
  let out := mineLoop r.data tz r.maxHashes clock (startT + r.timeLimitMs)
    r.maxHashes.toNat 0 r.startNonce
  { found := out.foundNonce.isSome
    nonce := out.foundNonce
    hashHex := out.foundHash
    triedHashes := out.tried
    elapsedMs := endT - startT
    targetZeros := tz }

/-- An HTTP-level outcome of `POST /api/mine`: a 4xx client rejection or a 200
result body. -/
inductive MineResponse where
  | clientError (code : Nat) (msg : String)
  | ok (res : MineResult)
deriving DecidableEq

/-- The `POST /api/mine` endpoint.  The `difficulty` bounds check models the
`conint(ge=1, le=7)` field validation of line 22, which the framework applies
before the handler runs; per the spec it is surfaced as a 400 client input
error.  The `max_hashes` guard is lines 92-94. -/
def mineEndpoint (clock : Nat → Int) (startT endT : Int) (r : MineRequest) : MineResponse :=
  if r.difficulty < 1 ∨ 7 < r.difficulty then
    .clientError 400 "difficulty must be in [1, 7]"
  else if r.maxHashes > 1000000 then
    .clientError 400 "max_hashes too large; must be <= 1,000,000"
  else
    .ok (mineSearch clock startT endT r)

/-- Whether a response is a client rejection. -/
def MineResponse.isClientError : MineResponse → Bool
  | .clientError _ _ => true
  | .ok _ => false

/-- Hash attempts performed while serving a response: none on the rejection
path, `tried_hashes` on the success path. -/
def MineResponse.hashesPerformed : MineResponse → Nat
  | .clientError _ _ => 0
  | .ok res => res.triedHashes

/-- The served `tried_hashes`, when a result body was produced. -/
def MineResponse.triedOf : MineResponse → Option Nat
  | .clientError _ _ => none
  | .ok res => some res.triedHashes

/-- The response body of `POST /api/hash`. -/
structure HashRes where
  data : String
  sha256 : List Nat
deriving DecidableEq

/-- The `simple_hash` endpoint (`src/main.py` lines 128-131):
`{"data": data, "sha256": hashlib.sha256(data.encode()).hexdigest()}`,
the digest as its 64 ASCII hex codes. -/
def simple_hash (data : String) : HashRes :=
  ⟨data, sha256HexCodes (strBytes data)⟩

/-- Number of leading ASCII `0` characters of a digest. -/
def leadZeros (l : List Nat) : Nat := (l.takeWhile fun c => c == 48).length

/-- When the loop records a match, the recorded hash is the digest of the
recorded nonce and that digest starts with the target zeros. -/
theorem mineLoop_found_spec (data : String) (tz : List Nat) (mh : Int) (clock : Nat → Int)
    (dl : Int) :
    ∀ (fuel tried : Nat) (nonce n : Int),
      (mineLoop data tz mh clock dl fuel tried nonce).foundNonce = some n →
      (mineLoop data tz mh clock dl fuel tried nonce).foundHash =
          some (sha256HexCodes (payloadBytes data n)) ∧ nonceHits data tz n = true := by
  intro fuel
  induction fuel with
  | zero =>
      intro tried nonce n h
      simp [mineLoop] at h
  | succ f ih =>
      intro tried nonce n
      simp only [mineLoop]
      split
      · split
        next hmatch =>
            intro h
            simp only [LoopOut.foundNonce, Option.some.injEq] at h
            subst h
            exact ⟨rfl, by simpa [nonceHits] using hmatch⟩
        next hmiss =>
            exact ih (tried + 1) (nonce + 1) n
      · intro h
        simp at h

/-- When the loop records a match starting from cursor `nonce`, the recorded
nonce is at least `nonce`, its digest matches, and no cursor value between
`nonce` and it matches: candidates are tried in increasing order by 1 and the
loop stops at the first match. -/
theorem mineLoop_first_match (data : String) (tz : List Nat) (mh : Int) (clock : Nat → Int)
    (dl : Int) :
    ∀ (fuel tried : Nat) (nonce n : Int),
      (mineLoop data tz mh clock dl fuel tried nonce).foundNonce = some n →
      nonce ≤ n ∧ nonceHits data tz n = true ∧
        ∀ m : Int, nonce ≤ m → m < n → nonceHits data tz m = false := by
  intro fuel
  induction fuel with
  | zero =>
      intro tried nonce n h
      simp [mineLoop] at h
  | succ f ih =>
      intro tried nonce n
      simp only [mineLoop]
      split
      · split
        next hmatch =>
            intro h
            simp only [LoopOut.foundNonce, Option.some.injEq] at h
            subst h
            refine ⟨le_refl _, by simpa [nonceHits] using hmatch, ?_⟩
            intro m hm1 hm2
            omega
        next hmiss =>
            intro h
            obtain ⟨h1, h2, h3⟩ := ih (tried + 1) (nonce + 1) n h
            refine ⟨by omega, h2, ?_⟩
            intro m hm1 hm2
            rcases eq_or_lt_of_le hm1 with heq | hlt
            · subst heq
              simpa [nonceHits] using hmiss
            · exact h3 m (by omega) hm2
      · intro h
        simp at h

/-- The final attempt counter never exceeds `max maxHashes tried₀`: the loop
guard requires `tried < max_hashes` before every attempt. -/
theorem mineLoop_tried_le (data : String) (tz : List Nat) (mh : Int) (clock : Nat → Int)
    (dl : Int) :
    ∀ (fuel tried : Nat) (nonce : Int),
      ((mineLoop data tz mh clock dl fuel tried nonce).tried : Int) ≤ max mh (tried : Int) := by
  intro fuel
  induction fuel with
  | zero =>
      intro tried nonce
      simp [mineLoop]
  | succ f ih =>
      intro tried nonce
      simp only [mineLoop]
      split
      next hg =>
        split
        next hmatch =>
            simp only [LoopOut.tried]
            have := hg.1
            push_cast
            omega
        next hmiss =>
            have h1 : ((tried + 1 : Nat) : Int) ≤ mh := by
              have := hg.1
              push_cast
              omega
            calc ((mineLoop data tz mh clock dl f (tried + 1) (nonce + 1)).tried : Int)
                ≤ max mh ((tried + 1 : Nat) : Int) := ih (tried + 1) (nonce + 1)
              _ = mh := max_eq_left h1
              _ ≤ max mh (tried : Int) := le_max_left _ _
      · simp

/-- Every attempt the loop actually performs passed its pre-attempt checks:
its clock reading was below the deadline and its index below `max_hashes`. -/
theorem mineLoop_checks (data : String) (tz : List Nat) (mh : Int) (clock : Nat → Int)
    (dl : Int) :
    ∀ (fuel tried : Nat) (nonce : Int) (i : Nat),
      tried ≤ i → i < (mineLoop data tz mh clock dl fuel tried nonce).tried →
      clock i < dl ∧ (i : Int) < mh := by
  intro fuel
  induction fuel with
  | zero =>
      intro tried nonce i h1 h2
      simp [mineLoop] at h2
      omega
  | succ f ih =>
      intro tried nonce i
      simp only [mineLoop]
      split
      next hg =>
        split
        next hmatch =>
            intro h1 h2
            simp only [LoopOut.tried] at h2
            have hi : i = tried := by omega
            subst hi
            exact ⟨hg.2, hg.1⟩
        next hmiss =>
            intro h1 h2
            rcases Nat.eq_or_lt_of_le h1 with heq | hlt
            · subst heq
              exact ⟨hg.2, hg.1⟩
            · exact ih (tried + 1) (nonce + 1) i hlt h2
      · intro h1 h2
        simp at h2
        omega

/-- The attempt counter and nonce cursor advance in lockstep: a recorded match
satisfies `n + 1 + tried₀ = nonce₀ + tried_final`. -/
theorem mineLoop_lockstep (data : String) (tz : List Nat) (mh : Int) (clock : Nat → Int)
    (dl : Int) :
    ∀ (fuel tried : Nat) (nonce n : Int),
      (mineLoop data tz mh clock dl fuel tried nonce).foundNonce = some n →
      n + 1 + (tried : Int) =
        nonce + ((mineLoop data tz mh clock dl fuel tried nonce).tried : Int) := by
  intro fuel
  induction fuel with
  | zero =>
      intro tried nonce n h
      simp [mineLoop] at h
  | succ f ih =>
      intro tried nonce n
      simp only [mineLoop]
      split
      · split
        next hmatch =>
            intro h
            simp only [LoopOut.foundNonce, Option.some.injEq] at h
            subst h
            simp only [LoopOut.tried]
            push_cast
            ring
        next hmiss =>
            intro h
            have := ih (tried + 1) (nonce + 1) n h
            push_cast at this ⊢
            omega
      · intro h
        simp at h

/-- The fuel parameter is irrelevant once it covers the remaining
`max_hashes - tried` iterations: this is why the Python `while` loop, which has
no fuel, terminates — `tried` strictly increases and is bounded by `max_hashes`. -/
theorem mineLoop_fuel_irrel (data : String) (tz : List Nat) (mh : Int) (clock : Nat → Int)
    (dl : Int) :
    ∀ (fuel1 fuel2 tried : Nat) (nonce : Int),
      mh ≤ (tried : Int) + (fuel1 : Int) → mh ≤ (tried : Int) + (fuel2 : Int) →
      mineLoop data tz mh clock dl fuel1 tried nonce =
        mineLoop data tz mh clock dl fuel2 tried nonce := by
  intro fuel1
  induction fuel1 with
  | zero =>
      intro fuel2 tried nonce h1 h2
      cases fuel2 with
      | zero => rfl
      | succ f2 =>
          simp only [mineLoop]
          rw [if_neg]
          intro hg
          have := hg.1
          simp at h1
          omega
  | succ f1 ih =>
      intro fuel2 tried nonce h1 h2
      cases fuel2 with
      | zero =>
          simp only [mineLoop]
          rw [if_neg]
          intro hg
          have := hg.1
          simp at h2
          omega
      | succ f2 =>
          simp only [mineLoop]
          by_cases hg : (tried : Int) < mh ∧ clock tried < dl
          · rw [if_pos hg, if_pos hg]
            by_cases hm : listStarts tz (sha256HexCodes (payloadBytes data nonce)) = true
            · rw [if_pos hm, if_pos hm]
            · rw [if_neg hm, if_neg hm]
              apply ih
              · push_cast at h1 ⊢
                omega
              · push_cast at h2 ⊢
                omega
          · rw [if_neg hg, if_neg hg]

/-- The running hash value stays eight words long through block processing. -/
theorem processBlocks_length (fuel : Nat) :
    ∀ (h bytes : List Nat), h.length = 8 → (processBlocks fuel h bytes).length = 8 := by
  induction fuel with
  | zero =>
      intro h bytes hh
      simpa [processBlocks] using hh
  | succ f ih =>
      intro h bytes hh
      simp only [processBlocks]
      apply ih
      simp [compress]

/-- Flattening the per-word hex encodings yields eight characters per word. -/
theorem flattenHex_length (l : List Nat) :
    ((l.map wordHexCodes).flatten).length = 8 * l.length := by
  induction l with
  | nil => simp
  | cons x xs ih =>
      simp [wordHexCodes, ih]
      ring

/-- Every digest produced by the embedded SHA-256 has 64 hex characters. -/
theorem sha256HexCodes_length (msg : List Nat) : (sha256HexCodes msg).length = 64 := by
  have h8 : (sha256Words msg).length = 8 := by
    simp only [sha256Words]
    exact processBlocks_length _ _ _ (by simp [sha256H0])
  simp only [sha256HexCodes]
  rw [flattenHex_length, h8]

/-- C1 (amended): whenever the mine search returns `found = true`, the returned
`hash_hex` equals the SHA-256 hex digest of `data` concatenated with the
delimiter `"|"` and the decimal representation of the returned `nonce`, and it
starts with the `difficulty`-character target of `'0'` characters (so it has at
least `difficulty` leading zeros; the `startswith` check of line 110 permits
more, see the counterexample). -/
theorem mine_found_hash_spec (clock : Nat → Int) (st et : Int) (r : MineRequest)
    (h : (mineSearch clock st et r).found = true) :
    ∃ n, (mineSearch clock st et r).nonce = some n ∧
      (mineSearch clock st et r).hashHex = some (sha256HexCodes (payloadBytes r.data n)) ∧
      listStarts (mineSearch clock st et r).targetZeros
        (sha256HexCodes (payloadBytes r.data n)) = true := by
  simp only [mineSearch] at h ⊢
  obtain ⟨n, hn⟩ := Option.isSome_iff_exists.mp h
  obtain ⟨hh, hhit⟩ := mineLoop_found_spec _ _ _ _ _ _ _ _ n hn
  exact ⟨n, hn, hh, by simpa [nonceHits] using hhit⟩

/-- Witness for C1 (amended): the search for data "e19" at difficulty 1 finds
nonce 1 and its digest. -/
theorem mine_found_hash_spec_witness :
    (mineSearch (fun _ => 0) 0 3 ⟨"e19", 1, 0, 10, 1500⟩).found = true ∧
    ∃ n, (mineSearch (fun _ => 0) 0 3 ⟨"e19", 1, 0, 10, 1500⟩).nonce = some n ∧
      (mineSearch (fun _ => 0) 0 3 ⟨"e19", 1, 0, 10, 1500⟩).hashHex =
        some (sha256HexCodes (payloadBytes "e19" n)) ∧
      listStarts (mineSearch (fun _ => 0) 0 3 ⟨"e19", 1, 0, 10, 1500⟩).targetZeros
        (sha256HexCodes (payloadBytes "e19" n)) = true :=
  ⟨by decide, mine_found_hash_spec (fun _ => 0) 0 3 ⟨"e19", 1, 0, 10, 1500⟩ (by decide)⟩

/-- Counterexample to C1 as stated: for data "d281", difficulty 1, start nonce
0 the search succeeds immediately, but the found digest has two leading `'0'`
characters, not exactly one. -/
theorem mine_exactly_difficulty_zeros_false :
    (mineSearch (fun _ => 0) 0 3 ⟨"d281", 1, 0, 5, 1500⟩).found = true ∧
    ¬ (leadZeros ((mineSearch (fun _ => 0) 0 3 ⟨"d281", 1, 0, 5, 1500⟩).hashHex.getD []) =
        (⟨"d281", 1, 0, 5, 1500⟩ : MineRequest).difficulty.toNat) := by
  decide

/-- C2: when the mine search returns `found = true`, the returned nonce is at
least `start_nonce`, its digest meets the target, and no integer in
`[start_nonce, nonce)` does: candidates are tried in increasing order by 1 and
the loop stops at the first match. -/
theorem mine_first_match_spec (clock : Nat → Int) (st et : Int) (r : MineRequest)
    (h : (mineSearch clock st et r).found = true) :
    ∃ n, (mineSearch clock st et r).nonce = some n ∧ r.startNonce ≤ n ∧
      nonceHits r.data (mineSearch clock st et r).targetZeros n = true ∧
      ∀ m : Int, r.startNonce ≤ m → m < n →
        nonceHits r.data (mineSearch clock st et r).targetZeros m = false := by
  simp only [mineSearch] at h ⊢
  obtain ⟨n, hn⟩ := Option.isSome_iff_exists.mp h
  obtain ⟨h1, h2, h3⟩ := mineLoop_first_match _ _ _ _ _ _ _ _ _ hn
  exact ⟨n, hn, h1, h2, h3⟩

/-- Witness for C2: for data "e19" at difficulty 1 the found nonce is 1 and no
smaller candidate from 0 matches. -/
theorem mine_first_match_spec_witness :
    (mineSearch (fun _ => 0) 0 3 ⟨"e19", 1, 0, 10, 1500⟩).found = true ∧
    ∃ n, (mineSearch (fun _ => 0) 0 3 ⟨"e19", 1, 0, 10, 1500⟩).nonce = some n ∧ (0 : Int) ≤ n ∧
      nonceHits "e19" (mineSearch (fun _ => 0) 0 3 ⟨"e19", 1, 0, 10, 1500⟩).targetZeros n = true ∧
      ∀ m : Int, (0 : Int) ≤ m → m < n →
        nonceHits "e19" (mineSearch (fun _ => 0) 0 3 ⟨"e19", 1, 0, 10, 1500⟩).targetZeros m = false :=
  ⟨by decide, mine_first_match_spec (fun _ => 0) 0 3 ⟨"e19", 1, 0, 10, 1500⟩ (by decide)⟩

/-- Counterexample to C3 as stated: the request with `max_hashes = -1` passes
validation (the cap only rejects values over 1,000,000), performs zero
attempts, yet `tried_hashes ≤ max_hashes` fails because `0 ≤ -1` is false. -/
theorem mine_tried_le_maxHashes_false :
    (mineEndpoint (fun _ => 0) 0 0 ⟨"a", 1, 0, -1, 100⟩).isClientError = false ∧
    (mineEndpoint (fun _ => 0) 0 0 ⟨"a", 1, 0, -1, 100⟩).triedOf = some 0 ∧
    ¬ ((0 : Int) ≤ (⟨"a", 1, 0, -1, 100⟩ : MineRequest).maxHashes) := by
  decide

/-- C3 (amended): for every request — in particular every request accepted by
validation — the attempts performed while serving it never exceed
`max(max_hashes, 0)`; for nonnegative `max_hashes` this is the bound
`tried_hashes ≤ max_hashes` of the spec. -/
theorem mine_tried_le_max (clock : Nat → Int) (st et : Int) (r : MineRequest) :
    ((mineEndpoint clock st et r).hashesPerformed : Int) ≤ max r.maxHashes 0 := by
  unfold mineEndpoint
  split
  · simp only [MineResponse.hashesPerformed]
    simp
  · split
    · simp only [MineResponse.hashesPerformed]
      simp
    · simp only [MineResponse.hashesPerformed, mineSearch]
      have := mineLoop_tried_le r.data (List.replicate r.difficulty.toNat 48) r.maxHashes
        clock (st + r.timeLimitMs) r.maxHashes.toNat 0 r.startNonce
      simpa using this

/-- C4: any request with `max_hashes` over 1,000,000 is answered with a 400
client error, whatever the other fields, and zero hash attempts are
performed in serving it. -/
theorem mine_max_hashes_rejected (clock : Nat → Int) (st et : Int) (r : MineRequest)
    (h : 1000000 < r.maxHashes) :
    (∃ msg, mineEndpoint clock st et r = .clientError 400 msg) ∧
    (mineEndpoint clock st et r).hashesPerformed = 0 := by
  unfold mineEndpoint
  split
  · exact ⟨⟨_, rfl⟩, rfl⟩
  · exact ⟨⟨_, rfl⟩, rfl⟩

/-- Witness for C4 at `max_hashes = 1,000,001`. -/
theorem mine_max_hashes_rejected_witness :
    1000000 < (⟨"a", 1, 0, 1000001, 100⟩ : MineRequest).maxHashes ∧
    ((∃ msg, mineEndpoint (fun _ => 0) 0 0 ⟨"a", 1, 0, 1000001, 100⟩ =
        .clientError 400 msg) ∧
      (mineEndpoint (fun _ => 0) 0 0 ⟨"a", 1, 0, 1000001, 100⟩).hashesPerformed = 0) :=
  ⟨by decide, mine_max_hashes_rejected (fun _ => 0) 0 0 ⟨"a", 1, 0, 1000001, 100⟩ (by decide)⟩

/-- C5: a difficulty outside [1, 7] is rejected as a client input error before
the search begins; with difficulty inside [1, 7] and the hash cap respected the
endpoint runs the search and returns its result; and a rejection only ever
means difficulty out of range or the hash cap exceeded. -/
theorem mine_difficulty_validation (clock : Nat → Int) (st et : Int) (r : MineRequest) :
    ((r.difficulty < 1 ∨ 7 < r.difficulty) →
        (mineEndpoint clock st et r).isClientError = true) ∧
    (1 ≤ r.difficulty → r.difficulty ≤ 7 → r.maxHashes ≤ 1000000 →
        mineEndpoint clock st et r = .ok (mineSearch clock st et r)) ∧
    ((mineEndpoint clock st et r).isClientError = true →
        r.difficulty < 1 ∨ 7 < r.difficulty ∨ 1000000 < r.maxHashes) := by
  refine ⟨?_, ?_, ?_⟩
  · intro h
    unfold mineEndpoint
    rw [if_pos h]
    rfl
  · intro h1 h2 h3
    unfold mineEndpoint
    rw [if_neg (by omega), if_neg (by omega)]
  · intro h
    by_cases h1 : r.difficulty < 1 ∨ 7 < r.difficulty
    · tauto
    · unfold mineEndpoint at h
      rw [if_neg h1] at h
      by_cases h2 : r.maxHashes > 1000000
      · tauto
      · rw [if_neg h2] at h
        simp [MineResponse.isClientError] at h

/-- Witness for C5: difficulty 0 is rejected; difficulty 1 with a small cap
runs the search. -/
theorem mine_difficulty_validation_witness :
    (mineEndpoint (fun _ => 0) 0 0 ⟨"a", 0, 0, 10, 100⟩).isClientError = true ∧
    mineEndpoint (fun _ => 0) 0 3 ⟨"e19", 1, 0, 10, 1500⟩ =
      .ok (mineSearch (fun _ => 0) 0 3 ⟨"e19", 1, 0, 10, 1500⟩) :=
  ⟨(mine_difficulty_validation (fun _ => 0) 0 0 ⟨"a", 0, 0, 10, 100⟩).1 (Or.inl (by decide)),
   (mine_difficulty_validation (fun _ => 0) 0 3 ⟨"e19", 1, 0, 10, 1500⟩).2.1
     (by decide) (by decide) (by decide)⟩

/-- C6: the time cap is checked before each attempt, so every attempt the
search performs saw a clock reading strictly below
`deadline = start + time_limit_ms`; consequently once some reading `clock j`
has reached the deadline, no attempt with index `j` or beyond is started
(`tried_hashes ≤ j`). -/
theorem mine_deadline_respected (clock : Nat → Int) (st et : Int) (r : MineRequest)
    (j : Nat) (hj : st + r.timeLimitMs ≤ clock j) :
    (mineSearch clock st et r).triedHashes ≤ j ∧
      ∀ i, i < (mineSearch clock st et r).triedHashes → clock i < st + r.timeLimitMs := by
  have hall : ∀ i, i < (mineSearch clock st et r).triedHashes →
      clock i < st + r.timeLimitMs := by
    intro i hi
    simp only [mineSearch] at hi
    exact (mineLoop_checks _ _ _ _ _ _ 0 _ i (Nat.zero_le _) hi).1
  refine ⟨?_, hall⟩
  by_contra hc
  push_neg at hc
  have := hall j hc
  omega

/-- Witness for C6: with the identity clock and a zero time budget the deadline
is already reached at the first check and no attempt is started. -/
theorem mine_deadline_respected_witness :
    ((0 : Int) + (⟨"a", 1, 0, 10, 0⟩ : MineRequest).timeLimitMs ≤ (fun i : Nat => (i : Int)) 0) ∧
    ((mineSearch (fun i : Nat => (i : Int)) 0 0 ⟨"a", 1, 0, 10, 0⟩).triedHashes ≤ 0 ∧
      ∀ i, i < (mineSearch (fun i : Nat => (i : Int)) 0 0 ⟨"a", 1, 0, 10, 0⟩).triedHashes →
        (fun i : Nat => (i : Int)) i < (0 : Int) + (⟨"a", 1, 0, 10, 0⟩ : MineRequest).timeLimitMs) :=
  ⟨by decide, mine_deadline_respected (fun i : Nat => (i : Int)) 0 0 ⟨"a", 1, 0, 10, 0⟩ 0 (by decide)⟩

/-- C7: two searches over the same data, difficulty, and start nonce that both
find a match return the same nonce and the same hash, regardless of their
clocks, start instants, hash caps, and time limits: the result is
deterministic in the inputs. -/
theorem mine_deterministic (c1 c2 : Nat → Int) (st1 et1 st2 et2 : Int) (data : String)
    (diff s mh1 tl1 mh2 tl2 : Int)
    (h1 : (mineSearch c1 st1 et1 ⟨data, diff, s, mh1, tl1⟩).found = true)
    (h2 : (mineSearch c2 st2 et2 ⟨data, diff, s, mh2, tl2⟩).found = true) :
    (mineSearch c1 st1 et1 ⟨data, diff, s, mh1, tl1⟩).nonce =
        (mineSearch c2 st2 et2 ⟨data, diff, s, mh2, tl2⟩).nonce ∧
      (mineSearch c1 st1 et1 ⟨data, diff, s, mh1, tl1⟩).hashHex =
        (mineSearch c2 st2 et2 ⟨data, diff, s, mh2, tl2⟩).hashHex := by
  simp only [mineSearch] at h1 h2 ⊢
  obtain ⟨n1, hn1⟩ := Option.isSome_iff_exists.mp h1
  obtain ⟨n2, hn2⟩ := Option.isSome_iff_exists.mp h2
  obtain ⟨ha1, hb1, hc1⟩ := mineLoop_first_match _ _ _ _ _ _ _ _ _ hn1
  obtain ⟨ha2, hb2, hc2⟩ := mineLoop_first_match _ _ _ _ _ _ _ _ _ hn2
  have hn : n1 = n2 := by
    rcases lt_trichotomy n1 n2 with h | h | h
    · rw [hc2 n1 ha1 h] at hb1
      simp at hb1
    · exact h
    · rw [hc1 n2 ha2 h] at hb2
      simp at hb2
  subst hn
  obtain ⟨hh1, _⟩ := mineLoop_found_spec _ _ _ _ _ _ _ _ _ hn1
  obtain ⟨hh2, _⟩ := mineLoop_found_spec _ _ _ _ _ _ _ _ _ hn2
  rw [hn1, hn2, hh1, hh2]
  exact ⟨rfl, rfl⟩

/-- Witness for C7: two runs on data "e19" with different clocks, caps, and
time limits both find a match, hence the same nonce and hash. -/
theorem mine_deterministic_witness :
    (mineSearch (fun _ => 0) 0 3 ⟨"e19", 1, 0, 10, 1500⟩).found = true ∧
    (mineSearch (fun i : Nat => (i : Int)) 0 5 ⟨"e19", 1, 0, 8, 999⟩).found = true ∧
    ((mineSearch (fun _ => 0) 0 3 ⟨"e19", 1, 0, 10, 1500⟩).nonce =
        (mineSearch (fun i : Nat => (i : Int)) 0 5 ⟨"e19", 1, 0, 8, 999⟩).nonce ∧
      (mineSearch (fun _ => 0) 0 3 ⟨"e19", 1, 0, 10, 1500⟩).hashHex =
        (mineSearch (fun i : Nat => (i : Int)) 0 5 ⟨"e19", 1, 0, 8, 999⟩).hashHex) :=
  ⟨by decide, by decide,
   mine_deterministic (fun _ => 0) (fun i : Nat => (i : Int)) 0 3 0 5 "e19" 1 0 10 1500 8 999
     (by decide) (by decide)⟩

/-- C8: `POST /api/hash` echoes the data and returns its SHA-256 hex digest of
64 characters; on "abc" the digest equals the published SHA-256 test vector. -/
theorem simple_hash_spec :
    (∀ d : String, (simple_hash d).data = d ∧
        (simple_hash d).sha256 = sha256HexCodes (strBytes d) ∧
        (simple_hash d).sha256.length = 64) ∧
      (simple_hash "abc").sha256 =
        ("ba7816bf8f01cfea414140de5dae2223b00361a396177a9cb410ff61f20015ad".toList.map
          Char.toNat) := by
  exact ⟨fun d => ⟨rfl, rfl, sha256HexCodes_length _⟩, by decide⟩

/-- C9: the search loop always terminates, even with an arbitrarily large time
budget: iteration fuel beyond `max(max_hashes, 0)` never changes the outcome —
`tried` increases by exactly 1 per iteration and the guard requires
`tried < max_hashes` — and the number of attempts performed is at most
`max(max_hashes, 0)`. -/
theorem mine_loop_terminates (data : String) (tz : List Nat) (mh : Int) (clock : Nat → Int)
    (dl : Int) (nonce : Int) (extra : Nat) :
    mineLoop data tz mh clock dl (mh.toNat + extra) 0 nonce =
        mineLoop data tz mh clock dl mh.toNat 0 nonce ∧
      ((mineLoop data tz mh clock dl mh.toNat 0 nonce).tried : Int) ≤ max mh 0 := by
  constructor
  · apply mineLoop_fuel_irrel
    · push_cast
      omega
    · push_cast
      omega
  · simpa using mineLoop_tried_le data tz mh clock dl mh.toNat 0 nonce

/-- C10: whenever the search returns `found = true`, the returned nonce equals
`start_nonce + tried_hashes - 1`: the attempt counter and the nonce cursor
advance in lockstep. -/
theorem mine_nonce_lockstep (clock : Nat → Int) (st et : Int) (r : MineRequest)
    (h : (mineSearch clock st et r).found = true) :
    ∃ n, (mineSearch clock st et r).nonce = some n ∧
      n = r.startNonce + ((mineSearch clock st et r).triedHashes : Int) - 1 := by
  simp only [mineSearch] at h ⊢
  obtain ⟨n, hn⟩ := Option.isSome_iff_exists.mp h
  have := mineLoop_lockstep _ _ _ _ _ _ _ _ _ hn
  refine ⟨n, hn, ?_⟩
  push_cast at this ⊢
  omega

/-- Witness for C10: the run on data "e19" finds nonce 1 after 2 attempts,
and 1 = 0 + 2 - 1. -/
theorem mine_nonce_lockstep_witness :
    (mineSearch (fun _ => 0) 0 3 ⟨"e19", 1, 0, 10, 1500⟩).found = true ∧
    ∃ n, (mineSearch (fun _ => 0) 0 3 ⟨"e19", 1, 0, 10, 1500⟩).nonce = some n ∧
      n = (⟨"e19", 1, 0, 10, 1500⟩ : MineRequest).startNonce +
        ((mineSearch (fun _ => 0) 0 3 ⟨"e19", 1, 0, 10, 1500⟩).triedHashes : Int) - 1 :=
  ⟨by decide, mine_nonce_lockstep (fun _ => 0) 0 3 ⟨"e19", 1, 0, 10, 1500⟩ (by decide)⟩
